import Mathlib

/- Verification of the LLM Writing Assistant repository.

   Embedded components:
   - the word-level diff pipeline of src/frontend/frontend.py
     (tokenizer, sequence aligner, diff classifier, change summary,
     export report counts), and
   - the assist gateway of src/backend/backend.py
     (validation, prompt building, upstream call, error mapping).

   Strings are modelled as lists of characters (Lean String values are
   unpacked with String.toList where the Python code receives str values). -/

/-- Models the Python whitespace character class used by the regular
expression in generate_word_diff (frontend.py line 15) and by str.strip
(backend.py line 42): ASCII whitespace plus the Unicode space characters. -/
def isPySpace (c : Char) : Bool :=
  c == ' ' || c == '\t' || c == '\n' || c == '\r' ||
  c.toNat == 0x0b || c.toNat == 0x0c ||
  (0x1c ≤ c.toNat && c.toNat ≤ 0x1f) || c.toNat == 0x85 || c.toNat == 0xa0 ||
  c.toNat == 0x1680 || (0x2000 ≤ c.toNat && c.toNat ≤ 0x200a) ||
  c.toNat == 0x2028 || c.toNat == 0x2029 || c.toNat == 0x202f ||
  c.toNat == 0x205f || c.toNat == 0x3000

/-- Models the tokenization step of generate_word_diff (frontend.py
lines 15-16): re.findall with the alternation of one-or-more
non-whitespace characters and one-or-more whitespace characters splits
the input into its unique decomposition into maximal runs of
same-whitespace-class characters, in left-to-right order.  The
decomposition is built here by grouping from the right; the round-trip,
homogeneity and maximality theorems below show it is exactly that
unique decomposition. -/
def tokenize : List Char → List (List Char)
  | [] => []
  | c :: cs =>
    match tokenize cs with
    | (d :: t) :: ts =>
      if isPySpace c = isPySpace d then (c :: d :: t) :: ts
      else [c] :: (d :: t) :: ts
    | _ => [[c]]

/-- The whitespace class of a token: the class of its first character. -/
def tokenClass : List Char → Bool
  | [] => false
  | c :: _ => isPySpace c

lemma tokenize_master (s : List Char) :
    (tokenize s).flatten = s ∧
    (∀ t ∈ tokenize s, t ≠ [] ∧ ∀ c ∈ t, isPySpace c = tokenClass t) ∧
    List.Chain' (fun t₁ t₂ => tokenClass t₁ ≠ tokenClass t₂) (tokenize s) := by
  induction s with
  | nil => simp [tokenize]
  | cons c cs ih =>
    obtain ⟨ihF, ihH, ihC⟩ := ih
    match h : tokenize cs with
    | [] =>
      have hcs : cs = [] := by rw [h] at ihF; simpa using ihF.symm
      subst hcs
      refine ⟨by simp [tokenize], ?_, by simp [tokenize]⟩
      intro t ht
      simp [tokenize] at ht
      subst ht
      refine ⟨by simp, ?_⟩
      intro x hx
      simp at hx
      subst hx
      rfl
    | [] :: ts =>
      exact absurd rfl ((ihH [] (by rw [h]; exact List.mem_cons_self _ _)).1)
    | (d :: t) :: ts =>
      rw [h] at ihF ihH ihC
      by_cases hc : isPySpace c = isPySpace d
      · have he : tokenize (c :: cs) = (c :: d :: t) :: ts := by
          simp only [tokenize, h]
          rw [if_pos hc]
        rw [he]
        refine ⟨?_, ?_, ?_⟩
        · simp only [List.flatten_cons, List.cons_append] at ihF ⊢
          rw [← ihF]
        · intro u hu
          rcases List.mem_cons.mp hu with hu | hu
          · subst hu
            refine ⟨by simp, ?_⟩
            intro x hx
            rcases List.mem_cons.mp hx with hx | hx
            · subst hx; rfl
            · have := (ihH (d :: t) (List.mem_cons_self _ _)).2 x hx
              simpa [tokenClass, hc] using this
          · exact ihH u (List.mem_cons_of_mem _ hu)
        · cases ts with
          | nil => simp
          | cons u ts' =>
            rw [List.chain'_cons] at ihC ⊢
            refine ⟨?_, ihC.2⟩
            have hcl : tokenClass (c :: d :: t) = tokenClass (d :: t) := by
              simp [tokenClass, hc]
            rw [hcl]
            exact ihC.1
      · have he : tokenize (c :: cs) = [c] :: (d :: t) :: ts := by
          simp only [tokenize, h]
          rw [if_neg hc]
        rw [he]
        refine ⟨?_, ?_, ?_⟩
        · simp only [List.flatten_cons, List.cons_append, List.nil_append] at ihF ⊢
          rw [← ihF]
        · intro u hu
          rcases List.mem_cons.mp hu with hu | hu
          · subst hu
            refine ⟨by simp, ?_⟩
            intro x hx
            simp at hx
            subst hx
            rfl
          · exact ihH u hu
        · rw [List.chain'_cons]
          refine ⟨?_, ihC⟩
          simpa [tokenClass] using hc

/-- C1: tokenizer round-trip.  For every input character sequence,
concatenating the tokens produced by the tokenization step of
generate_word_diff reconstructs the input exactly, and the empty input
yields an empty token sequence. -/
theorem tokenize_round_trip : ∀ s : List Char,
    (tokenize s).flatten = s ∧ tokenize ([] : List Char) = [] :=
  fun s => ⟨(tokenize_master s).1, rfl⟩

/-- C9: tokenizer partition.  Every token produced by the tokenization
step consists entirely of whitespace characters or entirely of
non-whitespace characters, and no two adjacent tokens have the same
class (the runs are maximal). -/
theorem tokenize_partition : ∀ s : List Char,
    (∀ t ∈ tokenize s,
      t ≠ [] ∧ ((∀ c ∈ t, isPySpace c = true) ∨ (∀ c ∈ t, isPySpace c = false))) ∧
    List.Chain' (fun t₁ t₂ => tokenClass t₁ ≠ tokenClass t₂) (tokenize s) := by
  intro s
  obtain ⟨-, hH, hC⟩ := tokenize_master s
  refine ⟨fun t ht => ⟨(hH t ht).1, ?_⟩, hC⟩
  cases hcl : tokenClass t with
  | false => right; intro c hc; rw [(hH t ht).2 c hc, hcl]
  | true => left; intro c hc; rw [(hH t ht).2 c hc, hcl]

theorem tokenize_partition_witness :
    (['a'] ∈ tokenize ("a b" : String).toList) ∧
    (['a'] ≠ [] ∧ ((∀ c ∈ ['a'], isPySpace c = true) ∨ (∀ c ∈ ['a'], isPySpace c = false))) :=
  ⟨by decide, (tokenize_partition ("a b" : String).toList).1 ['a'] (by decide)⟩

/- ===== Sequence Aligner =====

   frontend.py lines 18-24 delegate alignment to difflib.SequenceMatcher
   from the Python standard library, which is not part of this
   repository.  The definitions below are modelled from the spec
   (section 4.2): an LCS-style matcher that repeatedly takes the longest
   matching block in a window (preferring the earliest start in the
   original sequence, then the earliest start in the revised sequence),
   recurses on the windows to the left and to the right of that block,
   and finally emits contiguous opcodes exactly the way
   SequenceMatcher.get_opcodes does from its matching blocks.  The junk
   and popularity heuristics of the library, and its merging of adjacent
   blocks, are intentionally not modelled, as the spec states the exact
   tie-break policy need not match any specific library implementation. -/

/-- One matching block: a units starting at index a match b units starting
at index b, for size elements (difflib Match triple). -/
structure MatchBlock where
  a : Nat
  b : Nat
  size : Nat
deriving DecidableEq

/-- Length of the longest common prefix of two lists. -/
def matchLen [DecidableEq α] : List α → List α → Nat
  | x :: xs, y :: ys => if x = y then matchLen xs ys + 1 else 0
  | _, _ => 0

/-- Size of the match starting at the pair p of indices, capped to the
window upper bounds. -/
def capSize [DecidableEq α] (a b : List α) (ahi bhi : Nat) (p : Nat × Nat) : Nat :=
  min (matchLen (a.drop p.1) (b.drop p.2)) (min (ahi - p.1) (bhi - p.2))

/-- All index pairs of the window, in row-major order. -/
def windowPairs (alo ahi blo bhi : Nat) : List (Nat × Nat) :=
  (List.range' alo (ahi - alo)).flatMap fun i =>
    (List.range' blo (bhi - blo)).map fun j => (i, j)

/-- Modelled from the spec (section 4.2): the longest matching block of
the two sequences inside the window, with ties broken toward the
earliest start in a, then the earliest start in b (the documented
SequenceMatcher tie-break).  When nothing matches, the degenerate block
at the window origin with size zero is returned. -/
def find_longest_match [DecidableEq α] (a b : List α) (alo ahi blo bhi : Nat) : MatchBlock :=
  (windowPairs alo ahi blo bhi).foldl
    (fun best p =>
      if best.size < capSize a b ahi bhi p then ⟨p.1, p.2, capSize a b ahi bhi p⟩ else best)
    ⟨alo, blo, 0⟩

/-- Modelled from the spec: the recursive block collection of
SequenceMatcher.get_matching_blocks, written with explicit fuel so that
it is structurally recursive.  The fuel given by get_matching_blocks
below always suffices because every recursive call strictly shrinks the
window measure. -/
def matching_blocks_go [DecidableEq α] (a b : List α) :
    Nat → Nat → Nat → Nat → Nat → List MatchBlock
  | 0, _, _, _, _ => []
  | fuel + 1, alo, ahi, blo, bhi =>
    let m := find_longest_match a b alo ahi blo bhi
    if m.size = 0 then []
    else
      (if alo < m.a ∧ blo < m.b then matching_blocks_go a b fuel alo m.a blo m.b else []) ++
      ([m] ++
        (if m.a + m.size < ahi ∧ m.b + m.size < bhi then
          matching_blocks_go a b fuel (m.a + m.size) ahi (m.b + m.size) bhi else []))

/-- Modelled from the spec: the ordered matching blocks of the two
sequences, ended by the terminal zero-size block, as returned by
SequenceMatcher.get_matching_blocks. -/
def get_matching_blocks [DecidableEq α] (a b : List α) : List MatchBlock :=
  matching_blocks_go a b (a.length + b.length) 0 a.length 0 b.length ++
    [⟨a.length, b.length, 0⟩]

/-- The four opcode tags of SequenceMatcher.get_opcodes. -/
inductive Tag where
  | equal
  | delete
  | insert
  | replace
deriving DecidableEq

/-- One edit opcode: tag with a half-open original-side range [i1, i2)
and a half-open revised-side range [j1, j2). -/
structure Opcode where
  tag : Tag
  i1 : Nat
  i2 : Nat
  j1 : Nat
  j2 : Nat
deriving DecidableEq

/-- Modelled from the spec: the loop of SequenceMatcher.get_opcodes,
turning matching blocks into contiguous opcodes.  Before each block a
replace, delete or insert opcode covers the gap since the previous
block, then an equal opcode covers the block itself. -/
def opcodesLoop : Nat → Nat → List MatchBlock → List Opcode
  | _, _, [] => []
  | i, j, blk :: rest =>
    (if i < blk.a ∧ j < blk.b then [⟨Tag.replace, i, blk.a, j, blk.b⟩]
     else if i < blk.a then [⟨Tag.delete, i, blk.a, j, blk.b⟩]
     else if j < blk.b then [⟨Tag.insert, i, blk.a, j, blk.b⟩]
     else []) ++
    ((if blk.size = 0 then []
      else [⟨Tag.equal, blk.a, blk.a + blk.size, blk.b, blk.b + blk.size⟩]) ++
     opcodesLoop (blk.a + blk.size) (blk.b + blk.size) rest)

/-- Modelled from the spec: SequenceMatcher.get_opcodes on the two token
sequences, as consumed by the classifier loop of frontend.py line 24. -/
def get_opcodes [DecidableEq α] (a b : List α) : List Opcode :=
  opcodesLoop 0 0 (get_matching_blocks a b)

/- ===== Opcode partition invariant (spec section 3 and C2) ===== -/

/-- The opcode list forms a contiguous chain starting at the pair of
indices (i, j): each opcode starts exactly where the previous one ended
on both sides, with well-ordered ranges. -/
def OpsChain : Nat → Nat → List Opcode → Prop
  | _, _, [] => True
  | i, j, op :: rest =>
    op.i1 = i ∧ op.i1 ≤ op.i2 ∧ op.j1 = j ∧ op.j1 ≤ op.j2 ∧ OpsChain op.i2 op.j2 rest

/-- Where the opcode chain ends, starting from the pair p of indices. -/
def opsEnd : Nat × Nat → List Opcode → Nat × Nat
  | p, [] => p
  | _, op :: rest => opsEnd (op.i2, op.j2) rest

/-- The block list forms a monotone chain from (i, j), staying below the
window upper bounds (hi, hj). -/
def BlocksChainIn : Nat → Nat → Nat → Nat → List MatchBlock → Prop
  | _, _, _, _, [] => True
  | i, j, hi, hj, blk :: rest =>
    i ≤ blk.a ∧ j ≤ blk.b ∧ blk.a + blk.size ≤ hi ∧ blk.b + blk.size ≤ hj ∧
      BlocksChainIn (blk.a + blk.size) (blk.b + blk.size) hi hj rest

/-- Where the block chain ends, starting from the pair p of indices. -/
def blocksEnd : Nat × Nat → List MatchBlock → Nat × Nat
  | p, [] => p
  | _, blk :: rest => blocksEnd (blk.a + blk.size, blk.b + blk.size) rest

lemma windowPairs_mem {alo ahi blo bhi : Nat} {p : Nat × Nat}
    (h : p ∈ windowPairs alo ahi blo bhi) :
    alo ≤ p.1 ∧ p.1 < ahi ∧ blo ≤ p.2 ∧ p.2 < bhi := by
  simp only [windowPairs, List.mem_flatMap, List.mem_map] at h
  obtain ⟨i, hi, j, hj, rfl⟩ := h
  rw [List.mem_range'_1] at hi hj
  refine ⟨hi.1, ?_, hj.1, ?_⟩ <;> omega

lemma capSize_le_left [DecidableEq α] (a b : List α) (ahi bhi : Nat) (p : Nat × Nat) :
    capSize a b ahi bhi p ≤ ahi - p.1 :=
  le_trans (Nat.min_le_right _ _) (Nat.min_le_left _ _)

lemma capSize_le_right [DecidableEq α] (a b : List α) (ahi bhi : Nat) (p : Nat × Nat) :
    capSize a b ahi bhi p ≤ bhi - p.2 :=
  le_trans (Nat.min_le_right _ _) (Nat.min_le_right _ _)

lemma find_longest_match_bounds [DecidableEq α] (a b : List α) (alo ahi blo bhi : Nat)
    (h : (find_longest_match a b alo ahi blo bhi).size ≠ 0) :
    alo ≤ (find_longest_match a b alo ahi blo bhi).a ∧
    blo ≤ (find_longest_match a b alo ahi blo bhi).b ∧
    (find_longest_match a b alo ahi blo bhi).a +
      (find_longest_match a b alo ahi blo bhi).size ≤ ahi ∧
    (find_longest_match a b alo ahi blo bhi).b +
      (find_longest_match a b alo ahi blo bhi).size ≤ bhi := by
  suffices hkey : find_longest_match a b alo ahi blo bhi = ⟨alo, blo, 0⟩ ∨
      (alo ≤ (find_longest_match a b alo ahi blo bhi).a ∧
       blo ≤ (find_longest_match a b alo ahi blo bhi).b ∧
       (find_longest_match a b alo ahi blo bhi).a +
         (find_longest_match a b alo ahi blo bhi).size ≤ ahi ∧
       (find_longest_match a b alo ahi blo bhi).b +
         (find_longest_match a b alo ahi blo bhi).size ≤ bhi) by
    rcases hkey with hk | hk
    · rw [hk] at h
      simp at h
    · exact ⟨hk.1, hk.2.1, hk.2.2.1, hk.2.2.2⟩
  unfold find_longest_match
  refine List.foldlRecOn (motive := fun blk : MatchBlock => blk = ⟨alo, blo, 0⟩ ∨
    (alo ≤ blk.a ∧ blo ≤ blk.b ∧ blk.a + blk.size ≤ ahi ∧ blk.b + blk.size ≤ bhi))
    _ _ _ (Or.inl rfl) ?_
  intro acc hacc p hp
  by_cases hlt : acc.size < capSize a b ahi bhi p
  · rw [if_pos hlt]
    right
    obtain ⟨h1, h2, h3, h4⟩ := windowPairs_mem hp
    have hca := capSize_le_left a b ahi bhi p
    have hcb := capSize_le_right a b ahi bhi p
    refine ⟨h1, h3, ?_, ?_⟩ <;> simp <;> omega
  · rw [if_neg hlt]
    exact hacc

lemma blocksChain_lower {i j hi hj i' j' : Nat} {l : List MatchBlock}
    (h : BlocksChainIn i j hi hj l) (h1 : i' ≤ i) (h2 : j' ≤ j) :
    BlocksChainIn i' j' hi hj l := by
  cases l with
  | nil => trivial
  | cons blk rest =>
    obtain ⟨a1, a2, a3, a4, a5⟩ := h
    exact ⟨le_trans h1 a1, le_trans h2 a2, a3, a4, a5⟩

lemma blocksChain_append {l1 l2 : List MatchBlock} :
    ∀ {i j mi mj hi hj : Nat},
    BlocksChainIn i j mi mj l1 → BlocksChainIn mi mj hi hj l2 →
    i ≤ mi → j ≤ mj → mi ≤ hi → mj ≤ hj →
    BlocksChainIn i j hi hj (l1 ++ l2) := by
  induction l1 with
  | nil =>
    intro i j mi mj hi hj _ h2 hle1 hle2 _ _
    exact blocksChain_lower h2 hle1 hle2
  | cons blk t ih =>
    intro i j mi mj hi hj h1 h2 _ _ hm1 hm2
    obtain ⟨a1, a2, a3, a4, a5⟩ := h1
    refine ⟨a1, a2, le_trans a3 hm1, le_trans a4 hm2, ?_⟩
    exact ih a5 h2 a3 a4 hm1 hm2

lemma matching_blocks_go_chain [DecidableEq α] (a b : List α) :
    ∀ (fuel alo ahi blo bhi : Nat),
    BlocksChainIn alo blo ahi bhi (matching_blocks_go a b fuel alo ahi blo bhi) := by
  intro fuel
  induction fuel with
  | zero => intro alo ahi blo bhi; trivial
  | succ f ih =>
    intro alo ahi blo bhi
    rw [matching_blocks_go]
    by_cases hz : (find_longest_match a b alo ahi blo bhi).size = 0
    · rw [if_pos hz]; trivial
    · rw [if_neg hz]
      obtain ⟨hb1, hb2, hb3, hb4⟩ := find_longest_match_bounds a b alo ahi blo bhi hz
      set m := find_longest_match a b alo ahi blo bhi with hm
      have hmidright :
          BlocksChainIn m.a m.b ahi bhi
            ([m] ++ (if m.a + m.size < ahi ∧ m.b + m.size < bhi then
              matching_blocks_go a b f (m.a + m.size) ahi (m.b + m.size) bhi else [])) := by
        refine ⟨le_refl _, le_refl _, hb3, hb4, ?_⟩
        by_cases hr : m.a + m.size < ahi ∧ m.b + m.size < bhi
        · rw [if_pos hr]; exact ih (m.a + m.size) ahi (m.b + m.size) bhi
        · rw [if_neg hr]; trivial
      by_cases hl : alo < m.a ∧ blo < m.b
      · rw [if_pos hl]
        exact blocksChain_append (ih alo m.a blo m.b) hmidright
          (le_of_lt hl.1) (le_of_lt hl.2) (by omega) (by omega)
      · rw [if_neg hl]
        rw [List.nil_append]
        exact blocksChain_lower hmidright hb1 hb2

lemma get_matching_blocks_chain [DecidableEq α] (a b : List α) :
    BlocksChainIn 0 0 a.length b.length (get_matching_blocks a b) := by
  unfold get_matching_blocks
  refine blocksChain_append (matching_blocks_go_chain a b _ _ _ _ _)
    ?_ (Nat.zero_le _) (Nat.zero_le _) (le_refl _) (le_refl _)
  exact ⟨le_refl _, le_refl _, by simp, by simp, trivial⟩

lemma blocksEnd_append (p : Nat × Nat) (l1 l2 : List MatchBlock) :
    blocksEnd p (l1 ++ l2) = blocksEnd (blocksEnd p l1) l2 := by
  induction l1 generalizing p with
  | nil => rfl
  | cons blk t ih =>
    rw [List.cons_append]
    show blocksEnd (blk.a + blk.size, blk.b + blk.size) (t ++ l2) =
      blocksEnd (blocksEnd (blk.a + blk.size, blk.b + blk.size) t) l2
    exact ih _

lemma get_matching_blocks_end [DecidableEq α] (a b : List α) :
    blocksEnd (0, 0) (get_matching_blocks a b) = (a.length, b.length) := by
  unfold get_matching_blocks
  rw [blocksEnd_append]
  simp [blocksEnd]

lemma opsEnd_append (p : Nat × Nat) (l1 l2 : List Opcode) :
    opsEnd p (l1 ++ l2) = opsEnd (opsEnd p l1) l2 := by
  induction l1 generalizing p with
  | nil => rfl
  | cons op t ih =>
    rw [List.cons_append]
    show opsEnd (op.i2, op.j2) (t ++ l2) = opsEnd (opsEnd (op.i2, op.j2) t) l2
    exact ih _

lemma opsChain_append {l1 l2 : List Opcode} :
    ∀ {i j : Nat}, OpsChain i j l1 →
    OpsChain (opsEnd (i, j) l1).1 (opsEnd (i, j) l1).2 l2 →
    OpsChain i j (l1 ++ l2) := by
  induction l1 with
  | nil => intro i j _ h2; exact h2
  | cons op t ih =>
    intro i j h1 h2
    obtain ⟨a1, a2, a3, a4, a5⟩ := h1
    exact ⟨a1, a2, a3, a4, ih a5 h2⟩

lemma opcodesLoop_spec :
    ∀ (bs : List MatchBlock) (i j hi hj : Nat), BlocksChainIn i j hi hj bs →
    OpsChain i j (opcodesLoop i j bs) ∧
    opsEnd (i, j) (opcodesLoop i j bs) = blocksEnd (i, j) bs := by
  intro bs
  induction bs with
  | nil => intro i j hi hj _; exact ⟨trivial, rfl⟩
  | cons blk rest ih =>
    intro i j hi hj hch
    obtain ⟨c1, c2, c3, c4, c5⟩ := hch
    have hpre :
        ∀ pre, pre = (if i < blk.a ∧ j < blk.b then [⟨Tag.replace, i, blk.a, j, blk.b⟩]
          else if i < blk.a then [⟨Tag.delete, i, blk.a, j, blk.b⟩]
          else if j < blk.b then [⟨Tag.insert, i, blk.a, j, blk.b⟩]
          else ([] : List Opcode)) →
        OpsChain i j pre ∧ opsEnd (i, j) pre = (blk.a, blk.b) := by
      intro pre hdef
      by_cases h1 : i < blk.a ∧ j < blk.b
      · rw [if_pos h1] at hdef; subst hdef
        exact ⟨⟨rfl, le_of_lt h1.1, rfl, le_of_lt h1.2, trivial⟩, rfl⟩
      · rw [if_neg h1] at hdef
        by_cases h2 : i < blk.a
        · rw [if_pos h2] at hdef; subst hdef
          exact ⟨⟨rfl, le_of_lt h2, rfl, c2, trivial⟩, rfl⟩
        · rw [if_neg h2] at hdef
          by_cases h3 : j < blk.b
          · rw [if_pos h3] at hdef; subst hdef
            exact ⟨⟨rfl, c1, rfl, le_of_lt h3, trivial⟩, rfl⟩
          · rw [if_neg h3] at hdef; subst hdef
            have hia : i = blk.a := by omega
            have hjb : j = blk.b := by omega
            exact ⟨trivial, by rw [opsEnd, hia, hjb]⟩
    have heq :
        ∀ eqop, eqop = (if blk.size = 0 then ([] : List Opcode)
          else [⟨Tag.equal, blk.a, blk.a + blk.size, blk.b, blk.b + blk.size⟩]) →
        OpsChain blk.a blk.b eqop ∧
          opsEnd (blk.a, blk.b) eqop = (blk.a + blk.size, blk.b + blk.size) := by
      intro eqop hdef
      by_cases hz : blk.size = 0
      · rw [if_pos hz] at hdef; subst hdef
        refine ⟨trivial, ?_⟩
        rw [hz]
        simp [opsEnd]
      · rw [if_neg hz] at hdef; subst hdef
        exact ⟨⟨rfl, Nat.le_add_right _ _, rfl, Nat.le_add_right _ _, trivial⟩, rfl⟩
    obtain ⟨hrest1, hrest2⟩ := ih (blk.a + blk.size) (blk.b + blk.size) hi hj c5
    rw [opcodesLoop]
    obtain ⟨hp1, hp2⟩ := hpre _ rfl
    obtain ⟨he1, he2⟩ := heq _ rfl
    constructor
    · refine opsChain_append hp1 ?_
      rw [hp2]
      refine opsChain_append he1 ?_
      rw [he2]
      exact hrest1
    · rw [opsEnd_append, hp2, opsEnd_append, he2, hrest2, blocksEnd]

/-- C2: aligner totality.  For every pair of token sequences, the opcode
list produced inside generate_word_diff is a contiguous chain whose
original-side ranges partition the interval from 0 to the length of the
original sequence and whose revised-side ranges partition the interval
from 0 to the length of the revised sequence, in order, with no gaps
and no overlaps. -/
theorem diff_opcodes_partition (A B : List (List Char)) :
    OpsChain 0 0 (get_opcodes A B) ∧
    opsEnd (0, 0) (get_opcodes A B) = (A.length, B.length) := by
  have h := opcodesLoop_spec (get_matching_blocks A B) 0 0 A.length B.length
    (get_matching_blocks_chain A B)
  exact ⟨h.1, by rw [get_opcodes, h.2, get_matching_blocks_end]⟩

/- ===== Aligner identity (C3) ===== -/

lemma matchLen_self [DecidableEq α] (l : List α) : matchLen l l = l.length := by
  induction l with
  | nil => rfl
  | cons x xs ih => simp [matchLen, ih]

lemma foldl_flm_stays [DecidableEq α] (a b : List α) (ahi bhi : Nat) :
    ∀ (l : List (Nat × Nat)) (acc : MatchBlock),
    (∀ p ∈ l, capSize a b ahi bhi p ≤ acc.size) →
    l.foldl
      (fun best p =>
        if best.size < capSize a b ahi bhi p then ⟨p.1, p.2, capSize a b ahi bhi p⟩ else best)
      acc = acc := by
  intro l
  induction l with
  | nil => intro acc _; rfl
  | cons q t ih =>
    intro acc h
    rw [List.foldl_cons, if_neg (not_lt.mpr (h q (List.mem_cons_self _ _)))]
    exact ih acc (fun p hp => h p (List.mem_cons_of_mem _ hp))

lemma find_longest_match_self [DecidableEq α] (A : List α) (h : A ≠ []) :
    find_longest_match A A 0 A.length 0 A.length = ⟨0, 0, A.length⟩ := by
  obtain ⟨k, hk⟩ : ∃ k, A.length = k + 1 := by
    cases A with
    | nil => exact absurd rfl h
    | cons x xs => exact ⟨xs.length, rfl⟩
  rw [hk]
  unfold find_longest_match windowPairs
  rw [Nat.sub_zero, List.range'_succ _ _ _, List.flatMap_cons _ _ _, List.map_cons,
    List.cons_append, List.foldl_cons]
  have hcap : capSize A A (k + 1) (k + 1) (0, 0) = k + 1 := by
    simp [capSize, matchLen_self, hk]
  rw [show ((if (⟨0, 0, 0⟩ : MatchBlock).size < capSize A A (k + 1) (k + 1) (0, 0) then
      (⟨(0, 0).1, (0, 0).2, capSize A A (k + 1) (k + 1) (0, 0)⟩ : MatchBlock)
      else ⟨0, 0, 0⟩) = ⟨0, 0, k + 1⟩) by rw [hcap]; simp]
  apply foldl_flm_stays
  intro p _
  calc capSize A A (k + 1) (k + 1) p ≤ (k + 1) - p.1 := capSize_le_left A A _ _ p
    _ ≤ k + 1 := Nat.sub_le _ _

lemma get_matching_blocks_self [DecidableEq α] (A : List α) (h : A ≠ []) :
    get_matching_blocks A A = [⟨0, 0, A.length⟩, ⟨A.length, A.length, 0⟩] := by
  obtain ⟨k, hk⟩ : ∃ k, A.length = k + 1 := by
    cases A with
    | nil => exact absurd rfl h
    | cons x xs => exact ⟨xs.length, rfl⟩
  have hflm := find_longest_match_self A h
  rw [hk] at hflm
  unfold get_matching_blocks
  rw [hk]
  have hfuel : k + 1 + (k + 1) = (k + 1 + k) + 1 := by omega
  rw [hfuel, matching_blocks_go, hflm]
  simp

lemma get_opcodes_self [DecidableEq α] (A : List α) (h : A ≠ []) :
    get_opcodes A A = [⟨Tag.equal, 0, A.length, 0, A.length⟩] := by
  have hL : A.length ≠ 0 := fun hz => h (List.length_eq_zero.mp hz)
  unfold get_opcodes
  rw [get_matching_blocks_self A h]
  rw [opcodesLoop, opcodesLoop, opcodesLoop]
  simp [hL]

/- ===== Diff Classifier (frontend.py lines 24-46) ===== -/

/-- The four per-token status tags of generate_word_diff. -/
inductive Status where
  | unchanged
  | deleted
  | added
  | modified
deriving DecidableEq

/-- The tokens of ws with indices in the half-open range [lo, hi): models
the Python loops for i in range(i1, i2) indexing original_words and
revised_words (frontend.py lines 27-44); the opcode ranges always lie
inside the sequences, so taking a slice is exact. -/
def sliceTokens (ws : List α) (lo hi : Nat) : List α := (ws.drop lo).take (hi - lo)

/-- Models the opcode loop of generate_word_diff (frontend.py lines
24-44): equal spans tag both sides unchanged, delete spans tag original
tokens deleted, insert spans tag revised tokens added, replace spans tag
both sides modified.  The two lists are built in opcode order exactly as
the Python code appends to original_diff and revised_diff. -/
def classifyOps (aw bw : List α) : List Opcode → List (α × Status) × List (α × Status)
  | [] => ([], [])
  | op :: rest =>
    let r := classifyOps aw bw rest
    match op.tag with
    | Tag.equal =>
      ((sliceTokens aw op.i1 op.i2).map (fun w => (w, Status.unchanged)) ++ r.1,
       (sliceTokens bw op.j1 op.j2).map (fun w => (w, Status.unchanged)) ++ r.2)
    | Tag.delete =>
      ((sliceTokens aw op.i1 op.i2).map (fun w => (w, Status.deleted)) ++ r.1, r.2)
    | Tag.insert =>
      (r.1, (sliceTokens bw op.j1 op.j2).map (fun w => (w, Status.added)) ++ r.2)
    | Tag.replace =>
      ((sliceTokens aw op.i1 op.i2).map (fun w => (w, Status.modified)) ++ r.1,
       (sliceTokens bw op.j1 op.j2).map (fun w => (w, Status.modified)) ++ r.2)

/-- Models generate_word_diff (frontend.py lines 8-46): tokenize both
input strings, align the token sequences, and classify every token of
both sides, returning the pair of original-side and revised-side
classified token lists. -/
def generate_word_diff (original revised : String) :
    List (List Char × Status) × List (List Char × Status) :=
  let original_words := tokenize original.toList
  let revised_words := tokenize revised.toList
  classifyOps original_words revised_words (get_opcodes original_words revised_words)

/-- Models frontend.py line 198: number of revised-side tokens whose
status is added. -/
def added_count (original revised : String) : Nat :=
  ((generate_word_diff original revised).2).countP (fun p => p.2 == Status.added)

/-- Models frontend.py line 199: number of original-side tokens whose
status is deleted. -/
def deleted_count (original revised : String) : Nat :=
  ((generate_word_diff original revised).1).countP (fun p => p.2 == Status.deleted)

/-- Models frontend.py line 200: number of revised-side tokens whose
status is modified. -/
def modified_count (original revised : String) : Nat :=
  ((generate_word_diff original revised).2).countP (fun p => p.2 == Status.modified)

/-- The change summary of frontend.py lines 195-208: the triple of
added, modified and deleted counts shown to the user. -/
def change_summary (original revised : String) : Nat × Nat × Nat :=
  (added_count original revised, modified_count original revised,
   deleted_count original revised)

lemma countP_map_status {α : Type} (l : List α) (s s' : Status) :
    ((l.map (fun w => (w, s))).countP (fun p => p.2 == s')) =
      if s = s' then l.length else 0 := by
  induction l with
  | nil => simp
  | cons x xs ih =>
    rw [List.map_cons, List.countP_cons _ _ _, ih]
    by_cases h : s = s' <;> simp [h]

/- ===== Classifier conservation (C4) ===== -/

/-- Number of original-side tokens covered by equal, delete and replace
opcodes. -/
def coveredOrigCount : List Opcode → Nat
  | [] => 0
  | op :: rest =>
    (if op.tag = Tag.equal ∨ op.tag = Tag.delete ∨ op.tag = Tag.replace
     then op.i2 - op.i1 else 0) + coveredOrigCount rest

/-- Number of revised-side tokens covered by equal, insert and replace
opcodes. -/
def coveredRevCount : List Opcode → Nat
  | [] => 0
  | op :: rest =>
    (if op.tag = Tag.equal ∨ op.tag = Tag.insert ∨ op.tag = Tag.replace
     then op.j2 - op.j1 else 0) + coveredRevCount rest

/-- Number of original-side tokens covered by delete opcodes. -/
def deleteSpanOrig : List Opcode → Nat
  | [] => 0
  | op :: rest => (if op.tag = Tag.delete then op.i2 - op.i1 else 0) + deleteSpanOrig rest

/-- Number of revised-side tokens covered by insert opcodes. -/
def insertSpanRev : List Opcode → Nat
  | [] => 0
  | op :: rest => (if op.tag = Tag.insert then op.j2 - op.j1 else 0) + insertSpanRev rest

/-- Number of revised-side tokens covered by replace opcodes. -/
def replaceSpanRev : List Opcode → Nat
  | [] => 0
  | op :: rest => (if op.tag = Tag.replace then op.j2 - op.j1 else 0) + replaceSpanRev rest

lemma opsEnd_lower :
    ∀ (ops : List Opcode) (i j : Nat), OpsChain i j ops →
    i ≤ (opsEnd (i, j) ops).1 ∧ j ≤ (opsEnd (i, j) ops).2 := by
  intro ops
  induction ops with
  | nil => intro i j _; exact ⟨le_refl _, le_refl _⟩
  | cons op rest ih =>
    intro i j h
    obtain ⟨h1, h2, h3, h4, h5⟩ := h
    have := ih op.i2 op.j2 h5
    exact ⟨le_trans (h1 ▸ h2) this.1, le_trans (h3 ▸ h4) this.2⟩

lemma length_sliceTokens {ws : List α} {lo hi : Nat} (h : hi ≤ ws.length) :
    (sliceTokens ws lo hi).length = hi - lo := by
  simp only [sliceTokens, List.length_take, List.length_drop]
  omega

lemma countP_comp_status {α : Type u_1} (l : List α) (s s' : Status) :
    l.countP ((fun p : α × Status => p.2 == s') ∘ fun w => (w, s)) =
      if s = s' then l.length else 0 := by
  induction l with
  | nil => simp
  | cons x xs ih =>
    rw [List.countP_cons _ _ _, ih]
    by_cases h : s = s' <;> simp [Function.comp, h]

/-- Well-formedness of the opcode tags as emitted by get_opcodes: a
delete opcode has an empty revised-side range and an insert opcode has
an empty original-side range. -/
def OpsTagOk : List Opcode → Prop
  | [] => True
  | op :: rest =>
    (op.tag = Tag.delete → op.j1 = op.j2) ∧ (op.tag = Tag.insert → op.i1 = op.i2) ∧
      OpsTagOk rest

lemma opsTagOk_append {l1 l2 : List Opcode} (h1 : OpsTagOk l1) (h2 : OpsTagOk l2) :
    OpsTagOk (l1 ++ l2) := by
  induction l1 with
  | nil => exact h2
  | cons op t ih =>
    obtain ⟨a1, a2, a3⟩ := h1
    exact ⟨a1, a2, ih a3⟩

lemma opcodesLoop_tagOk :
    ∀ (bs : List MatchBlock) (i j hi hj : Nat), BlocksChainIn i j hi hj bs →
    OpsTagOk (opcodesLoop i j bs) := by
  intro bs
  induction bs with
  | nil => intro i j hi hj _; trivial
  | cons blk rest ih =>
    intro i j hi hj hch
    obtain ⟨c1, c2, c3, c4, c5⟩ := hch
    rw [opcodesLoop]
    refine opsTagOk_append ?_ (opsTagOk_append ?_ (ih _ _ hi hj c5))
    · by_cases h1 : i < blk.a ∧ j < blk.b
      · rw [if_pos h1]
        exact ⟨fun h => by simp at h, fun h => by simp at h, trivial⟩
      · rw [if_neg h1]
        by_cases h2 : i < blk.a
        · rw [if_pos h2]
          refine ⟨fun _ => ?_, fun h => by simp at h, trivial⟩
          show j = blk.b
          omega
        · rw [if_neg h2]
          by_cases h3 : j < blk.b
          · rw [if_pos h3]
            refine ⟨fun h => by simp at h, fun _ => ?_, trivial⟩
            show i = blk.a
            omega
          · rw [if_neg h3]
            trivial
    · by_cases hz : blk.size = 0
      · rw [if_pos hz]; trivial
      · rw [if_neg hz]
        exact ⟨fun h => by simp at h, fun h => by simp at h, trivial⟩

lemma classifyOps_spec (aw bw : List α) :
    ∀ (ops : List Opcode) (i j : Nat), OpsChain i j ops → OpsTagOk ops →
    (opsEnd (i, j) ops).1 ≤ aw.length → (opsEnd (i, j) ops).2 ≤ bw.length →
    (classifyOps aw bw ops).1.length = coveredOrigCount ops ∧
    (classifyOps aw bw ops).2.length = coveredRevCount ops ∧
    coveredOrigCount ops = (opsEnd (i, j) ops).1 - i ∧
    coveredRevCount ops = (opsEnd (i, j) ops).2 - j ∧
    (classifyOps aw bw ops).1.countP (fun p => p.2 == Status.deleted) = deleteSpanOrig ops ∧
    (classifyOps aw bw ops).2.countP (fun p => p.2 == Status.added) = insertSpanRev ops ∧
    (classifyOps aw bw ops).2.countP (fun p => p.2 == Status.modified) = replaceSpanRev ops := by
  intro ops
  induction ops with
  | nil =>
    intro i j _ _ _ _
    simp [classifyOps, coveredOrigCount, coveredRevCount, deleteSpanOrig, insertSpanRev,
      replaceSpanRev, opsEnd]
  | cons op rest ih =>
    intro i j hch htagok hA hB
    obtain ⟨h1, h2, h3, h4, h5⟩ := hch
    obtain ⟨t1, t2, t3⟩ := htagok
    have hEnd : opsEnd (i, j) (op :: rest) = opsEnd (op.i2, op.j2) rest := rfl
    rw [hEnd] at hA hB
    have hlow := opsEnd_lower rest op.i2 op.j2 h5
    have hi2 : op.i2 ≤ aw.length := le_trans hlow.1 hA
    have hj2 : op.j2 ≤ bw.length := le_trans hlow.2 hB
    obtain ⟨e1, e2, e3, e4, e5, e6, e7⟩ := ih op.i2 op.j2 h5 t3 hA hB
    have hsliceA : (sliceTokens aw op.i1 op.i2).length = op.i2 - op.i1 :=
      length_sliceTokens hi2
    have hsliceB : (sliceTokens bw op.j1 op.j2).length = op.j2 - op.j1 :=
      length_sliceTokens hj2
    subst h1 h3
    cases htag : op.tag with
    | equal =>
      simp only [classifyOps, htag, coveredOrigCount, coveredRevCount, deleteSpanOrig,
        insertSpanRev, replaceSpanRev, hEnd, List.length_append, List.length_map,
        List.countP_append, List.countP_map, countP_comp_status, hsliceA, hsliceB]
      refine ⟨by simp [e1], by simp [e2], ?_, ?_, by simp [e5], by simp [e6], by simp [e7]⟩
      · rw [e3]; simp; omega
      · rw [e4]; simp; omega
    | delete =>
      have hjj : op.j1 = op.j2 := t1 htag
      simp only [classifyOps, htag, coveredOrigCount, coveredRevCount, deleteSpanOrig,
        insertSpanRev, replaceSpanRev, hEnd, List.length_append, List.length_map,
        List.countP_append, List.countP_map, countP_comp_status, hsliceA, hsliceB]
      refine ⟨by simp [e1, hsliceA], by simp [e2], ?_, ?_,
        by simp [e5, hsliceA], by simp [e6], by simp [e7]⟩
      · rw [e3]; simp; omega
      · rw [e4]; simp; omega
    | insert =>
      have hii : op.i1 = op.i2 := t2 htag
      simp only [classifyOps, htag, coveredOrigCount, coveredRevCount, deleteSpanOrig,
        insertSpanRev, replaceSpanRev, hEnd, List.length_append, List.length_map,
        List.countP_append, List.countP_map, countP_comp_status, hsliceA, hsliceB]
      refine ⟨by simp [e1], by simp [e2, hsliceB], ?_, ?_,
        by simp [e5], by simp [e6, hsliceB], by simp [e7]⟩
      · rw [e3]; simp; omega
      · rw [e4]; simp; omega
    | replace =>
      simp only [classifyOps, htag, coveredOrigCount, coveredRevCount, deleteSpanOrig,
        insertSpanRev, replaceSpanRev, hEnd, List.length_append, List.length_map,
        List.countP_append, List.countP_map, countP_comp_status, hsliceA, hsliceB]
      refine ⟨by simp [e1, hsliceA], by simp [e2, hsliceB], ?_, ?_,
        by simp [e5], by simp [e6], by simp [e7, hsliceB]⟩
      · rw [e3]; simp; omega
      · rw [e4]; simp; omega

/-- C4: classifier conservation and count agreement.  For every pair of
input strings, the original-side diff length equals the number of
original tokens covered by equal, delete and replace opcodes and equals
the original token-sequence length (analogously for the revised side),
and the added, modified and deleted counts each equal the token counts
of the corresponding opcode spans (insert spans on the revised side,
replace spans on the revised side, delete spans on the original side),
whitespace tokens counted like word tokens. -/
theorem diff_conservation (o r : String) :
    (generate_word_diff o r).1.length =
      coveredOrigCount (get_opcodes (tokenize o.toList) (tokenize r.toList)) ∧
    (generate_word_diff o r).1.length = (tokenize o.toList).length ∧
    (generate_word_diff o r).2.length =
      coveredRevCount (get_opcodes (tokenize o.toList) (tokenize r.toList)) ∧
    (generate_word_diff o r).2.length = (tokenize r.toList).length ∧
    added_count o r = insertSpanRev (get_opcodes (tokenize o.toList) (tokenize r.toList)) ∧
    modified_count o r = replaceSpanRev (get_opcodes (tokenize o.toList) (tokenize r.toList)) ∧
    deleted_count o r = deleteSpanOrig (get_opcodes (tokenize o.toList) (tokenize r.toList)) := by
  have hchain := opcodesLoop_spec
    (get_matching_blocks (tokenize o.toList) (tokenize r.toList)) 0 0
    (tokenize o.toList).length (tokenize r.toList).length
    (get_matching_blocks_chain (tokenize o.toList) (tokenize r.toList))
  have htagok := opcodesLoop_tagOk
    (get_matching_blocks (tokenize o.toList) (tokenize r.toList)) 0 0
    (tokenize o.toList).length (tokenize r.toList).length
    (get_matching_blocks_chain (tokenize o.toList) (tokenize r.toList))
  have hend : opsEnd (0, 0) (get_opcodes (tokenize o.toList) (tokenize r.toList)) =
      ((tokenize o.toList).length, (tokenize r.toList).length) := by
    rw [get_opcodes, hchain.2, get_matching_blocks_end]
  have hA : (opsEnd (0, 0) (get_opcodes (tokenize o.toList) (tokenize r.toList))).1 ≤
      (tokenize o.toList).length := by rw [hend]
  have hB : (opsEnd (0, 0) (get_opcodes (tokenize o.toList) (tokenize r.toList))).2 ≤
      (tokenize r.toList).length := by rw [hend]
  obtain ⟨s1, s2, s3, s4, s5, s6, s7⟩ := classifyOps_spec (tokenize o.toList)
    (tokenize r.toList) (get_opcodes (tokenize o.toList) (tokenize r.toList)) 0 0
    hchain.1 htagok hA hB
  refine ⟨s1, ?_, s2, ?_, s6, s7, s5⟩
  · rw [show (generate_word_diff o r).1.length =
      coveredOrigCount (get_opcodes (tokenize o.toList) (tokenize r.toList)) from s1,
      s3, hend]
    simp
  · rw [show (generate_word_diff o r).2.length =
      coveredRevCount (get_opcodes (tokenize o.toList) (tokenize r.toList)) from s2,
      s4, hend]
    simp

/- ===== Side-restriction invariant (C10) ===== -/

lemma classifyOps_fst_status (aw bw : List α) :
    ∀ (ops : List Opcode) (p : α × Status), p ∈ (classifyOps aw bw ops).1 →
      p.2 = Status.unchanged ∨ p.2 = Status.deleted ∨ p.2 = Status.modified := by
  intro ops
  induction ops with
  | nil => intro p hp; simp [classifyOps] at hp
  | cons op rest ih =>
    intro p hp
    cases htag : op.tag <;> simp only [classifyOps, htag] at hp
    case equal =>
      rcases List.mem_append.mp hp with h | h
      · obtain ⟨w, _, rfl⟩ := List.mem_map.mp h
        exact Or.inl rfl
      · exact ih p h
    case delete =>
      rcases List.mem_append.mp hp with h | h
      · obtain ⟨w, _, rfl⟩ := List.mem_map.mp h
        exact Or.inr (Or.inl rfl)
      · exact ih p h
    case insert => exact ih p hp
    case replace =>
      rcases List.mem_append.mp hp with h | h
      · obtain ⟨w, _, rfl⟩ := List.mem_map.mp h
        exact Or.inr (Or.inr rfl)
      · exact ih p h

lemma classifyOps_snd_status (aw bw : List α) :
    ∀ (ops : List Opcode) (p : α × Status), p ∈ (classifyOps aw bw ops).2 →
      p.2 = Status.unchanged ∨ p.2 = Status.added ∨ p.2 = Status.modified := by
  intro ops
  induction ops with
  | nil => intro p hp; simp [classifyOps] at hp
  | cons op rest ih =>
    intro p hp
    cases htag : op.tag <;> simp only [classifyOps, htag] at hp
    case equal =>
      rcases List.mem_append.mp hp with h | h
      · obtain ⟨w, _, rfl⟩ := List.mem_map.mp h
        exact Or.inl rfl
      · exact ih p h
    case delete => exact ih p hp
    case insert =>
      rcases List.mem_append.mp hp with h | h
      · obtain ⟨w, _, rfl⟩ := List.mem_map.mp h
        exact Or.inr (Or.inl rfl)
      · exact ih p h
    case replace =>
      rcases List.mem_append.mp hp with h | h
      · obtain ⟨w, _, rfl⟩ := List.mem_map.mp h
        exact Or.inr (Or.inr rfl)
      · exact ih p h

/-- C10: side restriction.  For every pair of input strings, the
original-side sequence returned by generate_word_diff never contains a
token with status added and its statuses are drawn from unchanged,
deleted and modified; the revised-side sequence never contains a token
with status deleted and its statuses are drawn from unchanged, added
and modified. -/
theorem diff_side_statuses (o r : String) (p : List Char × Status) :
    (p ∈ (generate_word_diff o r).1 →
      p.2 ≠ Status.added ∧
        (p.2 = Status.unchanged ∨ p.2 = Status.deleted ∨ p.2 = Status.modified)) ∧
    (p ∈ (generate_word_diff o r).2 →
      p.2 ≠ Status.deleted ∧
        (p.2 = Status.unchanged ∨ p.2 = Status.added ∨ p.2 = Status.modified)) := by
  constructor
  · intro hp
    have h := classifyOps_fst_status (tokenize o.toList) (tokenize r.toList)
      (get_opcodes (tokenize o.toList) (tokenize r.toList)) p hp
    refine ⟨?_, h⟩
    rcases h with h | h | h <;> simp [h]
  · intro hp
    have h := classifyOps_snd_status (tokenize o.toList) (tokenize r.toList)
      (get_opcodes (tokenize o.toList) (tokenize r.toList)) p hp
    refine ⟨?_, h⟩
    rcases h with h | h | h <;> simp [h]

theorem diff_side_statuses_witness :
    ((['c'], Status.modified) ∈ (generate_word_diff "a b" "a c").2) ∧
    (Status.modified ≠ Status.deleted ∧
      (Status.modified = Status.unchanged ∨ Status.modified = Status.added ∨
        Status.modified = Status.modified)) :=
  ⟨by decide, (diff_side_statuses "a b" "a c" (['c'], Status.modified)).2 (by decide)⟩

/- ===== Aligner identity and no-change classification (C3) ===== -/

lemma sliceTokens_full (ws : List α) : sliceTokens ws 0 ws.length = ws := by
  simp [sliceTokens]

lemma generate_word_diff_identity (o r : String)
    (heq : tokenize o.toList = tokenize r.toList) :
    generate_word_diff o r =
      ((tokenize o.toList).map (fun w => (w, Status.unchanged)),
       (tokenize o.toList).map (fun w => (w, Status.unchanged))) := by
  have hg : generate_word_diff o r =
      classifyOps (tokenize o.toList) (tokenize r.toList)
        (get_opcodes (tokenize o.toList) (tokenize r.toList)) := rfl
  by_cases hA : tokenize o.toList = []
  · rw [hg, ← heq, hA]
    rfl
  · rw [hg, ← heq, get_opcodes_self _ hA]
    simp [classifyOps, sliceTokens_full]

/-- C3 (amended): aligner identity and no-change classification.  When
the two token sequences are element-wise equal, the aligner returns
exactly one equal opcode covering everything provided the common token
sequence is nonempty; for empty inputs the opcode list is empty (this
is the one correction to the claim).  In both cases generate_word_diff
tags every token on both sides unchanged and reports zero added, zero
modified and zero deleted tokens. -/
theorem diff_identity (o r : String)
    (heq : tokenize o.toList = tokenize r.toList) :
    (tokenize o.toList = [] →
      get_opcodes (tokenize o.toList) (tokenize r.toList) = []) ∧
    (tokenize o.toList ≠ [] →
      get_opcodes (tokenize o.toList) (tokenize r.toList) =
        [⟨Tag.equal, 0, (tokenize o.toList).length, 0, (tokenize r.toList).length⟩]) ∧
    (generate_word_diff o r).1 = (tokenize o.toList).map (fun w => (w, Status.unchanged)) ∧
    (generate_word_diff o r).2 = (tokenize r.toList).map (fun w => (w, Status.unchanged)) ∧
    change_summary o r = (0, 0, 0) := by
  have hgid := generate_word_diff_identity o r heq
  refine ⟨?_, ?_, ?_, ?_, ?_⟩
  · intro hA
    rw [← heq, hA]
    rfl
  · intro hA
    rw [← heq, get_opcodes_self _ hA]
  · rw [hgid]
  · rw [hgid, heq]
  · have ha : added_count o r = 0 := by
      rw [added_count, hgid]
      simp [countP_map_status]
    have hm : modified_count o r = 0 := by
      rw [modified_count, hgid]
      simp [countP_map_status]
    have hd : deleted_count o r = 0 := by
      rw [deleted_count, hgid]
      simp [countP_map_status]
    rw [change_summary, ha, hm, hd]

/-- C3 counterexample: at the empty input pair the token sequences are
equal (both empty), yet the opcode list is empty rather than a single
equal opcode covering everything, so the claim as stated fails. -/
theorem diff_identity_empty_counterexample :
    tokenize ("" : String).toList = tokenize ("" : String).toList ∧
    get_opcodes (tokenize ("" : String).toList) (tokenize ("" : String).toList) = [] ∧
    (get_opcodes (tokenize ("" : String).toList) (tokenize ("" : String).toList)).length ≠ 1 := by
  refine ⟨rfl, rfl, by decide⟩

theorem diff_identity_witness :
    tokenize ("ab c" : String).toList = tokenize ("ab c" : String).toList ∧
    tokenize ("ab c" : String).toList ≠ [] ∧
    get_opcodes (tokenize ("ab c" : String).toList) (tokenize ("ab c" : String).toList) =
      [⟨Tag.equal, 0, 3, 0, 3⟩] ∧
    change_summary "ab c" "ab c" = (0, 0, 0) := by
  refine ⟨rfl, by decide, ?_, (diff_identity "ab c" "ab c" rfl).2.2.2.2⟩
  have h := (diff_identity "ab c" "ab c" rfl).2.1 (by decide)
  simpa using h

/- ===== Export report counts (C5) ===== -/

/-- Models frontend.py lines 218-252: just before the export section
builds the downloadable comparison report, lines 219-220 rebind
original_diff and revised_diff to empty lists, and lines 250-252 then
compute the added, modified and deleted counts of the report from those
emptied lists.  The counts written into the report therefore never
depend on the actual diff of the current pair. -/
def report_counts (original revised : String) : Nat × Nat × Nat :=
  let original_diff : List (List Char × Status) := []
  let revised_diff : List (List Char × Status) := []
  (revised_diff.countP (fun p => p.2 == Status.added),
   revised_diff.countP (fun p => p.2 == Status.modified),
   original_diff.countP (fun p => p.2 == Status.deleted))

/-- C5 (code bug): for the pair original "The cat sat." and revised
"The dog sat." the change summary of section 4.3 is zero added, one
modified, zero deleted, but the counts written into the downloadable
comparison report are all zero, because lines 219-220 reset the diff
lists before the report sums them.  The counts in the report therefore
do not equal the counts shown in the change summary. -/
theorem report_counts_bug :
    change_summary "The cat sat." "The dog sat." = (0, 1, 0) ∧
    report_counts "The cat sat." "The dog sat." = (0, 0, 0) ∧
    change_summary "The cat sat." "The dog sat." ≠
      report_counts "The cat sat." "The dog sat." := by
  refine ⟨by decide, rfl, by decide⟩

/- ===== Assist Gateway (backend.py) ===== -/

/-- Models Python str.strip with no arguments (backend.py line 42):
remove leading and trailing whitespace characters. -/
def pyStrip (s : List Char) : List Char :=
  ((s.dropWhile isPySpace).reverse.dropWhile isPySpace).reverse

/-- The two correction modes of AssistRequest (backend.py line 34). -/
inductive Mode where
  | full
  | grammar
deriving DecidableEq

/-- Models the two prompt templates of backend.py lines 46-60: a fixed
instruction prefixed to the stripped input text, chosen by mode. -/
def build_prompt (mode : Mode) (original_text : String) : String :=
  match mode with
  | Mode.grammar =>
    "Correct the grammar, spelling, and punctuation in the following text. " ++
    "Do **not** change the style, tone, vocabulary, structure, or meaning. " ++
    "Respond with **only** the corrected text.\n\n" ++ original_text
  | Mode.full =>
    "Improve the clarity, style and academic tone of the following text. " ++
    "Do **not** change the meaning and the language. " ++
    "Respond with the corrected text **only**.\n\n" ++ original_text

/-- The outcome of the single requests.post call inside query_ollama,
supplied as an oracle input to the model of the handler: either the
transport fails (connection error or timeout raised by requests.post),
or a response arrives with a status code, a reason phrase, and the
value of the response field of its JSON body when that field is
present. -/
inductive BackendResp where
  | transportFail (msg : String)
  | httpResp (status : Nat) (reason : String) (responseField : Option String)
deriving DecidableEq

/-- Models requests raise_for_status (backend.py line 81): per the
requests library it raises HTTPError exactly for status codes 400-499
(Client Error) and 500-599 (Server Error), with the message format
shown; any other status, including 3xx, passes silently.  Returns the
exception message when one is raised. -/
def raiseForStatusMsg (status : Nat) (reason : String) : Option String :=
  if 400 ≤ status ∧ status < 500 then
    some (toString status ++ " Client Error: " ++ reason ++
      " for url: http://localhost:11434/api/generate")
  else if 500 ≤ status ∧ status < 600 then
    some (toString status ++ " Server Error: " ++ reason ++
      " for url: http://localhost:11434/api/generate")
  else none

/-- Models query_ollama (backend.py lines 72-82): a single POST to the
inference endpoint, then raise_for_status, then indexing the JSON body
with the key response.  The error branch carries the Python exception
message str(e): the transport message, the HTTPError message, or the
KeyError message \x27response\x27 when the field is missing.  The
prompt argument mirrors the source signature; the oracle supplies the
response. -/
def query_ollama (prompt : String) (resp : BackendResp) : Except String String :=
  match resp with
  | BackendResp.transportFail msg => Except.error msg
  | BackendResp.httpResp status reason field =>
    match raiseForStatusMsg status reason with
    | some msg => Except.error msg
    | none =>
      match field with
      | some text => Except.ok text
      | none => Except.error "\x27response\x27"

/-- The observable result of the /assist handler: either a 200 response
with the assisted text, or an HTTPException with status code and
detail. -/
inductive GatewayResult where
  | ok (assisted_text : String)
  | httpError (status : Nat) (detail : String)
deriving DecidableEq

/-- Result of one handler invocation plus the number of requests issued
to the inference backend during it. -/
structure AssistOutcome where
  result : GatewayResult
  backendCalls : Nat
deriving DecidableEq

/-- Models the /assist handler assist_report (backend.py lines 38-69):
strip the text; fail with 422 Empty text input. before any backend call
when the stripped text is empty; otherwise build the mode prompt, issue
exactly one query_ollama call, return the stripped response text on
success, and map any exception to a 500 with detail LLM error: followed
by the exception message. -/
def assist_report (text : String) (mode : Mode) (backend : BackendResp) : AssistOutcome :=
  let original_text := pyStrip text.toList
  if original_text = [] then
    ⟨GatewayResult.httpError 422 "Empty text input.", 0⟩
  else
    let prompt := build_prompt mode (String.mk original_text)
    match query_ollama prompt backend with
    | Except.ok response => ⟨GatewayResult.ok (String.mk (pyStrip response.toList)), 1⟩
    | Except.error e => ⟨GatewayResult.httpError 500 ("LLM error: " ++ e), 1⟩

/-- The failure kind visible to the caller: the HTTP status code of the
error response, or none for a success. -/
def resultStatus : GatewayResult → Option Nat
  | GatewayResult.ok _ => none
  | GatewayResult.httpError status _ => some status

/-- C6: validation error before any network call.  For every request
whose text is empty after stripping, the handler fails with 422 and
detail Empty text input. and issues no backend request; for text that
is non-empty after stripping, no 422 validation error is raised. -/
theorem assist_validation (text : String) (mode : Mode) (backend : BackendResp) :
    (pyStrip text.toList = [] →
      assist_report text mode backend =
        ⟨GatewayResult.httpError 422 "Empty text input.", 0⟩) ∧
    (pyStrip text.toList ≠ [] →
      ∀ d : String, (assist_report text mode backend).result ≠
        GatewayResult.httpError 422 d) := by
  constructor
  · intro h
    have h2 : pyStrip text.data = [] := h
    rw [assist_report]
    simp [h, h2]
  · intro h d
    rw [assist_report]
    simp only [h, if_neg h]
    cases hq : query_ollama (build_prompt mode (String.mk (pyStrip text.toList))) backend with
    | ok response => simp [hq]
    | error e => simp [hq]

theorem assist_validation_witness :
    (pyStrip ("  " : String).toList = [] ∧
      assist_report "  " Mode.full (BackendResp.transportFail "x") =
        ⟨GatewayResult.httpError 422 "Empty text input.", 0⟩) ∧
    (pyStrip ("hi" : String).toList ≠ [] ∧
      (assist_report "hi" Mode.full (BackendResp.httpResp 200 "OK" (some "ok"))).result ≠
        GatewayResult.httpError 422 "Empty text input.") :=
  ⟨⟨by decide, (assist_validation "  " Mode.full (BackendResp.transportFail "x")).1 (by decide)⟩,
   ⟨by decide, (assist_validation "hi" Mode.full
      (BackendResp.httpResp 200 "OK" (some "ok"))).2 (by decide) "Empty text input."⟩⟩

/-- C7 (amended): upstream failure mapping.  For every request with
non-empty stripped text, when the transport fails (unreachable or
timeout) or the final response has a 4xx or 5xx status, the handler
fails with HTTP 500, detail LLM error: followed by the underlying
transport or status message, no assisted text is produced, and exactly
one backend attempt is made with no retry.  The correction to the
claim: the failure statuses are the 4xx and 5xx ranges that
raise_for_status raises for, not every non-2xx status; a 3xx final
response is not treated as a failure. -/
theorem assist_upstream (text : String) (mode : Mode)
    (h : pyStrip text.toList ≠ []) :
    (∀ msg : String, assist_report text mode (BackendResp.transportFail msg) =
      ⟨GatewayResult.httpError 500 ("LLM error: " ++ msg), 1⟩) ∧
    (∀ (status : Nat) (reason : String) (field : Option String),
      400 ≤ status → status < 600 →
      ∃ m : String, raiseForStatusMsg status reason = some m ∧
        assist_report text mode (BackendResp.httpResp status reason field) =
          ⟨GatewayResult.httpError 500 ("LLM error: " ++ m), 1⟩) := by
  have h2 : ¬ pyStrip text.data = [] := h
  constructor
  · intro msg
    rw [assist_report]
    simp [h, h2, query_ollama]
  · intro status reason field h4 h6
    by_cases h5 : status < 500
    · refine ⟨toString status ++ " Client Error: " ++ reason ++
        " for url: http://localhost:11434/api/generate", ?_, ?_⟩
      · rw [raiseForStatusMsg, if_pos ⟨h4, h5⟩]
      · rw [assist_report]
        simp only [h, h2, if_neg h2, query_ollama, raiseForStatusMsg, if_pos (And.intro h4 h5)]
        simp
    · have h5a : 500 ≤ status := by omega
      have hneg : ¬ (400 ≤ status ∧ status < 500) := by omega
      refine ⟨toString status ++ " Server Error: " ++ reason ++
        " for url: http://localhost:11434/api/generate", ?_, ?_⟩
      · rw [raiseForStatusMsg, if_neg hneg, if_pos ⟨h5a, h6⟩]
      · rw [assist_report]
        simp only [h, h2, if_neg h2, query_ollama, raiseForStatusMsg, if_neg hneg,
          if_pos (And.intro h5a h6)]
        simp

theorem assist_upstream_witness :
    (pyStrip ("hello" : String).toList ≠ []) ∧
    assist_report "hello" Mode.full (BackendResp.transportFail "connection refused") =
      ⟨GatewayResult.httpError 500 "LLM error: connection refused", 1⟩ ∧
    assist_report "hello" Mode.full
        (BackendResp.httpResp 500 "Internal Server Error" (some "ignored")) =
      ⟨GatewayResult.httpError 500
        ("LLM error: 500 Server Error: Internal Server Error " ++
          "for url: http://localhost:11434/api/generate"), 1⟩ := by
  refine ⟨by decide, ?_, ?_⟩
  · exact (assist_upstream "hello" Mode.full (by decide)).1 "connection refused"
  · obtain ⟨m, hm, he⟩ := (assist_upstream "hello" Mode.full (by decide)).2
      500 "Internal Server Error" (some "ignored") (by omega) (by omega)
    rw [raiseForStatusMsg] at hm
    simp only [show ¬ (400 ≤ 500 ∧ 500 < 500) from by omega, if_neg, if_pos,
      show (500 ≤ 500 ∧ 500 < 600) from by omega] at hm
    rw [he]
    congr 2
    simp at hm
    rw [← hm]
    rfl

/-- C7 counterexample: a final response with the non-2xx status 302 (a
redirect status that requests returns as-is when it cannot follow it)
whose JSON body has a response field makes the handler return assisted
text with no error, so the claim that every non-2xx status yields an
upstream failure with no assisted text fails on the code, which raises
only for 4xx and 5xx. -/
theorem assist_non2xx_counterexample :
    (assist_report "hello" Mode.full (BackendResp.httpResp 302 "Found" (some "hi"))).result =
      GatewayResult.ok "hi" ∧
    ¬ (200 ≤ 302 ∧ 302 < 300) := by
  refine ⟨by decide, by omega⟩

/-- C8 (amended): malformed-response error.  When the inference backend
returns a 2xx response whose JSON body lacks the response field, the
handler fails with HTTP 500 and detail LLM error: \x27response\x27
(wrapping the KeyError message) and no assisted text is produced.  The
correction to the claim: the code defines no MalformedResponseError
kind distinct from the upstream failure kind; the missing field is
surfaced through the same blanket except branch, as an HTTP 500 with
the LLM error prefix, exactly like upstream failures. -/
theorem assist_malformed_response (text : String) (mode : Mode)
    (status : Nat) (reason : String)
    (h : pyStrip text.toList ≠ []) (h2 : 200 ≤ status) (h3 : status < 300) :
    assist_report text mode (BackendResp.httpResp status reason none) =
      ⟨GatewayResult.httpError 500 ("LLM error: " ++ "\x27response\x27"), 1⟩ := by
  have hd : ¬ pyStrip text.data = [] := h
  have hneg1 : ¬ (400 ≤ status ∧ status < 500) := by omega
  have hneg2 : ¬ (500 ≤ status ∧ status < 600) := by omega
  rw [assist_report]
  simp only [h, hd, if_neg hd, query_ollama, raiseForStatusMsg, if_neg hneg1, if_neg hneg2]
  simp

theorem assist_malformed_response_witness :
    (pyStrip ("hi" : String).toList ≠ [] ∧ 200 ≤ 200 ∧ 200 < 300) ∧
    assist_report "hi" Mode.full (BackendResp.httpResp 200 "OK" none) =
      ⟨GatewayResult.httpError 500 ("LLM error: " ++ "\x27response\x27"), 1⟩ :=
  ⟨⟨by decide, by omega, by omega⟩,
    assist_malformed_response "hi" Mode.full 200 "OK" (by decide) (by omega) (by omega)⟩

/-- C8 counterexample: the failure produced for a 2xx response lacking
the response field has the same observable kind as the failure produced
for an upstream HTTP 500: both are HTTPException results with status
500 and an LLM error detail, so the claimed distinct
MalformedResponseError kind does not exist in the code. -/
theorem assist_malformed_kind_counterexample :
    resultStatus (assist_report "hi" Mode.full
      (BackendResp.httpResp 200 "OK" none)).result = some 500 ∧
    resultStatus (assist_report "hi" Mode.full
      (BackendResp.httpResp 500 "Internal Server Error" (some "text"))).result = some 500 ∧
    resultStatus (assist_report "hi" Mode.full
        (BackendResp.httpResp 200 "OK" none)).result =
      resultStatus (assist_report "hi" Mode.full
        (BackendResp.httpResp 500 "Internal Server Error" (some "text"))).result := by
  refine ⟨by decide, by decide, by decide⟩
